import Mathlib

/-!
Verification development for the `gop` release-packaging tool (Go, package
`main`, file `gop.go` in the variant with concurrent packaging and upload
rollback).  The Go functions relevant to the checked properties are embedded
shallowly below: file contents are lists of scanned lines, directory trees are
explicit tree values, external command execution is an oracle
`Cmd → Bool` telling whether a given invocation succeeds, and the Go
`strings` and `path/filepath` library calls used by the tool are modelled by
executable list-of-characters functions with the documented Go semantics.
-/

namespace Gop

/-! ## Go standard-library string operations (as used by gop) -/

/-- Go `strings.Fields`: split around runs of whitespace, no empty fields.
`cur` holds the characters of the word in progress, reversed. -/
def fieldsAux : List Char → List Char → List String
  | cur, [] => if cur.isEmpty then [] else [String.mk cur.reverse]
  | cur, c :: cs =>
    if c.isWhitespace then
      if cur.isEmpty then fieldsAux [] cs
      else String.mk cur.reverse :: fieldsAux [] cs
    else fieldsAux (c :: cur) cs

/-- Go `strings.Fields`. -/
def fields (s : String) : List String := fieldsAux [] s.toList

/-- Go `strings.Split(s, "/")` (the only separator gop splits on). -/
def splitSlashAux : List Char → List Char → List String
  | cur, [] => [String.mk cur.reverse]
  | cur, c :: cs =>
    if c = '/' then String.mk cur.reverse :: splitSlashAux [] cs
    else splitSlashAux (c :: cur) cs

/-- Go `strings.Split(s, "/")`. -/
def splitSlash (s : String) : List String := splitSlashAux [] s.toList

/-- Go `strings.Join(parts, sep)`. -/
def goJoin (sep : String) : List String → String
  | [] => ""
  | [x] => x
  | x :: y :: xs => x ++ sep ++ goJoin sep (y :: xs)

/-- Go `strings.TrimSpace`. -/
def trimSpace (s : String) : String :=
  String.mk (((s.toList.dropWhile Char.isWhitespace).reverse.dropWhile
    Char.isWhitespace).reverse)

/-- Go `strings.TrimSuffix`. -/
def trimSuffix (s suffix : String) : String :=
  if suffix.toList.isSuffixOf s.toList then
    String.mk (s.toList.take (s.toList.length - suffix.toList.length))
  else s

/-- Go `strings.ToLower` (the tool only meets ASCII names). -/
def goToLower (s : String) : String := String.mk (s.toList.map Char.toLower)

/-- Go `filepath.Ext`: the suffix of the final path element starting at its
final dot, empty when the final element has no dot. -/
def ext (s : String) : String :=
  let seg := s.toList.reverse.takeWhile (fun c => c ≠ '/')
  if seg.contains '.' then
    String.mk ('.' :: (seg.takeWhile (fun c => c ≠ '.')).reverse)
  else ""

/-- Go `filepath.Base` on the clean, slash-separated, non-empty paths the
walk produces. -/
def baseOf (s : String) : String :=
  if s = "" then "." else (splitSlash s).getLastD "."

/-- Go `filepath.Dir` on the clean, slash-separated paths the walk
produces. -/
def dirOf (s : String) : String :=
  let parts := (splitSlash s).dropLast
  if parts.isEmpty then "." else goJoin "/" parts

/-- Go `filepath.Join` of two clean non-empty components, as used by gop. -/
def joinPath (a b : String) : String := a ++ "/" ++ b

/-! ## Configuration constants of gop -/

/-- Go constant `distDir`. -/
def distDir : String := "dist"

/-- Go constant `binDir`. -/
def binDir : String := "bin"

/-- Go constant `packLicDir`. -/
def packLicDir : String := "licenses-and-notices"

/-- Go constant `packReadmeName`. -/
def packReadmeName : String := "readme.txt"

/-- Go variable `noWalk`: names ignored when traversing the walk directory
(a set, modelled as the list of its keys). -/
def noWalk : List String := ["examples", "assets", "dist", "bin", "src", ".go"]

/-! ## `projectInfo` (Metadata Reader)

The Go function scans lines of the manifest; `fields[0]` and `fields[1]`
are Go slice indexing, which panics when out of range.  The scan breaks on
the first `module` line, setting the globals `modulePath` and
`projectName`; when no such line arrives the loop simply ends and the
globals keep their zero value `""`. -/

/-- Result of the `projectInfo` scan: either an index-out-of-range panic
(from `fields[0]` or `fields[1]`) or a normal return, carrying the final
values of the globals `modulePath` and `projectName`. -/
inductive ProjResult where
  | panicked : ProjResult
  | ok (modulePath projectName : String) : ProjResult
deriving DecidableEq

/-- The scanner loop of Go `projectInfo`. -/
def projectInfoLoop : List String → ProjResult
  | [] => .ok "" ""
  | t :: rest =>
    match fields t with
    | [] => .panicked
    | f0 :: fs =>
      if f0 = "module" then
        match fs with
        | [] => .panicked
        | f1 :: _ => .ok f1 ((splitSlash f1).getLastD "")
      else projectInfoLoop rest

/-- Go `projectInfo`, applied to the lines of a manifest that opened
successfully. -/
def projectInfo (lines : List String) : ProjResult := projectInfoLoop lines

/-! ## `changes` (Changelog Parser) -/

/-- The heading test of Go `changes`: `len(t) > 2 && t[0:2] == "# "`
(byte comparisons agree with the character comparisons used here because
`'#'` and a space are one byte each). -/
def isHeading (t : String) : Bool :=
  decide (2 < t.toList.length) && decide (t.toList.take 2 = ['#', ' '])

/-- The scanner loop of Go `changes`: state is the `in` flag, the `version`
global and the builder content (as the list of accumulated lines; each line
is written followed by a newline). -/
def changesLoop : List String → Bool → String → List String → String × List String
  | [], _, ver, acc => (ver, acc)
  | t :: rest, inBlock, ver, acc =>
    if isHeading t then
      if inBlock then (ver, acc)
      else changesLoop rest true (trimSpace (String.mk (t.toList.drop 1))) acc
    else changesLoop rest inBlock ver (acc ++ [t])

/-- Concatenation of a list of strings (the `strings.Builder` content). -/
def concatAll : List String → String
  | [] => ""
  | s :: ss => s ++ concatAll ss

/-- Go `changes`, applied to the lines of a changelog that opened
successfully: returns the `version` and `changelog` globals. -/
def changes (lines : List String) : String × String :=
  let r := changesLoop lines false "" []
  (r.1, trimSuffix (concatAll (r.2.map (fun t => t ++ "\n"))) "\n")

/-! ## `funcWalk` and `collect` (License Collector, vendor-tree pass)

`filepath.Walk` is modelled on an explicit directory tree (children listed
in the lexical order Walk uses).  The walk function of Go `funcWalk` is

```
if info.IsDir() { return nil }
if err != nil { return err }
_, a := noWalk[info.Name()]
_, b := noWalk[filepath.Ext(info.Name())]
if a || b {
    if info.IsDir() { return filepath.SkipDir } else { return nil }
}
f(dir, path, info)
return nil
```

and is embedded branch for branch in `walkFnAct`, including the
`SkipDir` branch guarded by the second `info.IsDir()` test. -/

mutual
/-- A node of a directory tree: a plain file or a directory with children. -/
inductive FSTree where
  | file (name : String) : FSTree
  | dir (name : String) (children : FSForest) : FSTree

/-- Children of a directory, in the lexical order `filepath.Walk` visits. -/
inductive FSForest where
  | nil : FSForest
  | cons (t : FSTree) (ts : FSForest) : FSForest
end

/-- The name of a tree node (Go `info.Name()`). -/
def nameOf : FSTree → String
  | .file n => n
  | .dir n _ => n

/-- What the walk function does with one visited entry. -/
inductive WalkAct where
  | next : WalkAct
  | skipDir : WalkAct
  | run : WalkAct
deriving DecidableEq

/-- The walk function passed to `filepath.Walk` by Go `funcWalk`, branch for
branch: `next` is `return nil`, `run` means the callback `f` runs. -/
def walkFnAct (isDir : Bool) (name : String) : WalkAct :=
  if isDir then .next
  else if noWalk.contains name || noWalk.contains (ext name) then
    if isDir then .skipDir else .next
  else .run

mutual
/-- `filepath.Walk` recursion: the paths at which the callback of
`funcWalk` runs, for the entry rooted at `path`. -/
def walkEntryAt : String → FSTree → List String
  | path, .file n =>
    match walkFnAct false n with
    | .run => [path]
    | _ => []
  | path, .dir n cs =>
    match walkFnAct true n with
    | .skipDir => []
    | _ => walkForestUnder path cs

/-- `filepath.Walk` recursion over the children of the directory at
`path`. -/
def walkForestUnder : String → FSForest → List String
  | _, .nil => []
  | path, .cons t ts =>
    walkEntryAt (joinPath path (nameOf t)) t ++ walkForestUnder path ts
end

/-- Go `funcWalk dir f`: the paths at which `f` runs.  As in Go, the root
is visited at the path equal to the directory argument itself. -/
def funcWalk (root : FSTree) : List String := walkEntryAt (nameOf root) root

/-- Go `isLicense`. -/
def isLicense (fname : String) : Bool :=
  let name := goToLower (trimSuffix fname (ext fname))
  name == "license" || name == "copying" || name == "notice"

/-- The target base name computed by the callback in Go `collect` for a
license found at `path`:
`strings.Join([]string{gpName, pName, name}, "-")`. -/
def licTargetBase (path : String) : String :=
  let name := goToLower (baseOf path)
  let pPath := dirOf path
  let pName := baseOf pPath
  let gpPath := dirOf pPath
  let gpName := baseOf gpPath
  goJoin "-" [gpName, pName, name]

/-- Go `collect files vend` on an existing vendor tree: the bindings added
to the `files` map, in walk order (`files[filepath.Join(packLicDir, base)]
= path` for every walked file whose name passes `isLicense`).  Later
bindings of the same key overwrite earlier ones in the Go map. -/
def collect (vend : FSTree) : List (String × String) :=
  (funcWalk vend).filterMap fun path =>
    let name := goToLower (baseOf path)
    if isLicense name then
      some (joinPath packLicDir (licTargetBase path), path)
    else none

/-! ## `pack` (Archive Builder)

Each goroutine of Go `pack` builds one zip per binary; the zip contents
are deterministic given the shared `files` map, the readme string and the
project name.  A zip entry is its created name together with the copied
content source (a literal string for the readme, a file path for the
rest).  The `files` map is passed as the association list of its bindings;
the count of entries written per zip does not depend on the map iteration
order. -/

/-- The source of the bytes copied into one zip entry. -/
inductive ZipSrc where
  | text (s : String) : ZipSrc
  | fromFile (path : String) : ZipSrc
deriving DecidableEq

/-- Output zip path of the goroutine for binary `b`:
`filepath.Join(distDir, base+".zip")` with `base :=
strings.TrimSuffix(b, filepath.Ext(b))`. -/
def zipName (b : String) : String :=
  joinPath distDir (trimSuffix b (ext b) ++ ".zip")

/-- The entries written into the zip for binary `b`, in program order:
the readme, the binary renamed to `projectName + ext`, then every binding
of the `files` map. -/
def zipEntries (projectName readme : String) (files : List (String × String))
    (b : String) : List (String × ZipSrc) :=
  (packReadmeName, ZipSrc.text readme)
    :: (projectName ++ ext b, ZipSrc.fromFile (joinPath binDir b))
    :: files.map (fun pr => (pr.1, ZipSrc.fromFile pr.2))

/-- The packaging loop of Go `pack`: one `(zip path, zip entries)` pair per
discovered binary. -/
def pack (projectName readme : String) (files : List (String × String))
    (binaries : List String) : List (String × List (String × ZipSrc)) :=
  binaries.map (fun b => (zipName b, zipEntries projectName readme files b))

/-! ## `release` (Release Publisher)

External command execution is an oracle `run : Cmd → Bool` (true means the
invocation exits successfully).  The transient notes file created by
`ioutil.TempFile` has an unpredictable name, passed in as `tmpName`; the
local file operations (temp-file creation, the copy of the changelog into
it) are assumed to succeed, as only external-command failures drive the
behaviour the spec describes.  Progress prints to stdout are omitted; the
stderr diagnostics are recorded. -/

/-- One external process invocation: the tool (`gh` or `git`) and its
arguments. -/
structure Cmd where
  tool : String
  args : List String
deriving DecidableEq

/-- How Go `release` terminates. -/
inductive Outcome where
  | done : Outcome
  | fatalExit : Outcome
  | exitZero : Outcome
deriving DecidableEq

/-- Observable result of Go `release`: external invocations in order,
stderr diagnostics in order, and the way the process ends. -/
structure RelResult where
  cmds : List Cmd
  errs : List String
  outcome : Outcome
deriving DecidableEq

/-- Go `release dir`, with the globals (`packFlag`, `prerelease`,
`version`) and the directory listing of `dir` (read only when `packFlag`
is set) passed explicitly. -/
def release (run : Cmd → Bool) (packFlag prerelease : Bool)
    (version tmpName dir : String) (assets : List String) : RelResult :=
  if packFlag && assets.length ≤ 0 then
    { cmds := [], errs := ["No assets in " ++ dir ++ " directory\n"],
      outcome := .exitZero }
  else
    let createCmd : Cmd :=
      ⟨"gh", ["release", "create", version, "-t", version, "-F", tmpName]
        ++ if prerelease then ["-p"] else []⟩
    if !(run createCmd) then
      { cmds := [createCmd], errs := [], outcome := .fatalExit }
    else if !packFlag then
      { cmds := [createCmd], errs := [], outcome := .done }
    else
      let uploadCmd : Cmd :=
        ⟨"gh", ["release", "upload", version]
          ++ assets.map (fun a => joinPath dir a)⟩
      if run uploadCmd then
        { cmds := [createCmd, uploadCmd], errs := [], outcome := .done }
      else
        let delCmd : Cmd := ⟨"gh", ["release", "delete", version]⟩
        if !(run delCmd) then
          { cmds := [createCmd, uploadCmd, delCmd],
            errs := ["\n❗ Could not upload assets: " ++ version ++ "\n",
                     "\n❗ Could not delete release: " ++ version ++ "\n"],
            outcome := .exitZero }
        else
          let tagCmd : Cmd := ⟨"git", ["push", "--delete", version]⟩
          if !(run tagCmd) then
            { cmds := [createCmd, uploadCmd, delCmd, tagCmd],
              errs := ["\n❗ Could not upload assets: " ++ version ++ "\n",
                       "\n❗ Could not delete remote tag: " ++ version ++ "\n"],
              outcome := .exitZero }
          else
            { cmds := [createCmd, uploadCmd, delCmd, tagCmd],
              errs := ["\n❗ Could not upload assets: " ++ version ++ "\n"],
              outcome := .exitZero }

/-- An execution oracle under which the asset upload and the release
deletion fail while every other external invocation succeeds. -/
def failUploadAndDelete : Cmd → Bool := fun c =>
  !(c.args.take 2 == ["release", "upload"]) && !(c.args.take 2 == ["release", "delete"])

/-- The vendor tree `vendor/a/b/LICENSE` of the specification example. -/
def vendorABTree : FSTree :=
  .dir "vendor" (.cons (.dir "a" (.cons (.dir "b"
    (.cons (.file "LICENSE") .nil)) .nil)) .nil)

/-- A vendor tree holding a license file below a directory named `src`,
a member of the exclusion set `noWalk`. -/
def vendorSrcTree : FSTree :=
  .dir "vendor" (.cons (.dir "pkg" (.cons (.dir "src"
    (.cons (.file "LICENSE") .nil)) .nil)) .nil)

/-! ## Helper lemmas -/

/-- Scanning a block of non-heading lines only appends them to the
builder, in order, whatever the `in` flag. -/
theorem changesLoop_no_heading (pre : List String)
    (hpre : ∀ t ∈ pre, isHeading t = false) (rest : List String)
    (inB : Bool) (ver : String) (acc : List String) :
    changesLoop (pre ++ rest) inB ver acc = changesLoop rest inB ver (acc ++ pre) := by
  induction pre generalizing acc with
  | nil => simp
  | cons t ts ih =>
    have ht : isHeading t = false := hpre t (by simp)
    rw [List.cons_append]
    show changesLoop (t :: (ts ++ rest)) inB ver acc = _
    rw [changesLoop, ht]
    simp only [Bool.false_eq_true, if_false]
    rw [ih (fun x hx => hpre x (by simp [hx])) (acc ++ [t])]
    simp

/-- Once the `in` flag is set, the recorded version no longer changes:
a later heading breaks the loop, all other lines only accumulate. -/
theorem changesLoop_version_stable (rest : List String) (ver : String)
    (acc : List String) : (changesLoop rest true ver acc).1 = ver := by
  induction rest generalizing acc with
  | nil => rfl
  | cons t ts ih =>
    rw [changesLoop]
    by_cases ht : isHeading t = true
    · simp [ht]
    · simp only [Bool.not_eq_true] at ht
      simp [ht, ih]

/-- `(a ++ b).data` is the concatenation of the data lists. -/
theorem strData_append (a b : String) : (a ++ b).data = a.data ++ b.data := by
  cases a; cases b; rfl

/-- Strings with equal data lists are equal. -/
theorem strEq_of_data (a b : String) (h : a.data = b.data) : a = b := by
  cases a with | mk da =>
  cases b with | mk db =>
  have h2 : da = db := h
  rw [h2]

/-- Appending a fixed string on the right is injective. -/
theorem strAppend_right_inj (s : String) {a b : String}
    (h : a ++ s = b ++ s) : a = b := by
  apply strEq_of_data
  have hd := congrArg String.data h
  rw [strData_append, strData_append] at hd
  exact List.append_cancel_right hd

/-- Appending a fixed string on the left is injective. -/
theorem strAppend_left_inj (s : String) {a b : String}
    (h : s ++ a = s ++ b) : a = b := by
  apply strEq_of_data
  have hd := congrArg String.data h
  rw [strData_append, strData_append] at hd
  exact List.append_cancel_left hd

/-- Distinct binary base names give distinct zip output paths. -/
theorem zipName_inj {a b : String}
    (h : trimSuffix a (ext a) ≠ trimSuffix b (ext b)) : zipName a ≠ zipName b := by
  intro he
  apply h
  have h1 : trimSuffix a (ext a) ++ ".zip" = trimSuffix b (ext b) ++ ".zip" :=
    strAppend_left_inj (distDir ++ "/") (by
      simpa [zipName, joinPath, String.append_assoc] using he)
  exact strAppend_right_inj ".zip" h1

/-! ## Claim theorems -/

/-- C1 (counterexample): on the changelog
`["before", "# 1.0.0", "fix", "# 0.9.0", "old"]` — two headings, one line
before the first — the extracted notes are `"before\nfix"`, not the claimed
`"fix"`: the line before the first heading is included. -/
theorem changes_includes_preamble :
    (changes ["before", "# 1.0.0", "fix", "# 0.9.0", "old"]).2 = "before\nfix" ∧
    "before\nfix" ≠ "fix" := by decide

/-- C1 (amended): for every changelog with at least two heading lines,
decomposed as `pre ++ h1 :: mid ++ h2 :: rest` with `h1`, `h2` the first
two headings, the extracted notes are the lines before the first heading
followed by the lines strictly between the two headings, each line followed
by a newline, with the trailing newline trimmed.  No line at or after the
second heading is included. -/
theorem changes_notes_between (pre mid rest : List String) (h1 h2 : String)
    (hpre : ∀ t ∈ pre, isHeading t = false)
    (hmid : ∀ t ∈ mid, isHeading t = false)
    (hh1 : isHeading h1 = true) (hh2 : isHeading h2 = true) :
    (changes (pre ++ h1 :: (mid ++ h2 :: rest))).2
      = trimSuffix (concatAll ((pre ++ mid).map (fun t => t ++ "\n"))) "\n" := by
  have key : changesLoop (pre ++ h1 :: (mid ++ h2 :: rest)) false "" []
      = (trimSpace (String.mk (h1.toList.drop 1)), pre ++ mid) := by
    rw [changesLoop_no_heading pre hpre]
    rw [changesLoop, hh1]
    simp only [if_true, List.nil_append]
    rw [changesLoop_no_heading mid hmid]
    rw [changesLoop, hh2]
    simp
  simp [changes, key]

/-- C1 (witness). -/
theorem changes_notes_between_witness :
    (changes (["before"] ++ "# 1.0.0" :: (["fix"] ++ "# 0.9.0" :: ["old"]))).2
      = trimSuffix (concatAll ((["before"] ++ ["fix"]).map (fun t => t ++ "\n"))) "\n" :=
  changes_notes_between ["before"] ["fix"] ["old"] "# 1.0.0" "# 0.9.0"
    (by decide) (by decide) (by decide) (by decide)

/-- C5 (counterexample): on a heading line carrying two tokens after the
marker, the first whitespace-delimited token is `"1.0.0"`, but the
extracted version is the whole trimmed remainder `"1.0.0 beta"`. -/
theorem changes_version_keeps_later_tokens :
    (fields (String.mk ("# 1.0.0 beta".toList.drop 2))).headD "" = "1.0.0" ∧
    (changes ["# 1.0.0 beta"]).1 = "1.0.0 beta" ∧
    "1.0.0 beta" ≠ "1.0.0" := by decide

/-- C5 (amended): for every changelog whose first heading is `h1` (all
lines before it are non-headings), the extracted version is the whole
remainder of `h1` after the `#`, with surrounding whitespace trimmed —
tokens after the first are kept. -/
theorem changes_version_after_marker (pre rest : List String) (h1 : String)
    (hpre : ∀ t ∈ pre, isHeading t = false) (hh1 : isHeading h1 = true) :
    (changes (pre ++ h1 :: rest)).1 = trimSpace (String.mk (h1.toList.drop 1)) := by
  have key : (changesLoop (pre ++ h1 :: rest) false "" []).1
      = trimSpace (String.mk (h1.toList.drop 1)) := by
    rw [changesLoop_no_heading pre hpre]
    rw [changesLoop, hh1]
    simp only [if_true]
    exact changesLoop_version_stable rest _ _
  simp [changes, key]

/-- C5 (witness). -/
theorem changes_version_after_marker_witness :
    (changes ([] ++ "# 1.0.0 beta" :: [])).1
      = trimSpace (String.mk ("# 1.0.0 beta".toList.drop 1)) :=
  changes_version_after_marker [] [] "# 1.0.0 beta" (by decide) (by decide)

/-- C4 (counterexample): a manifest that opens successfully and holds the
single line `"x y"` — no line whose first token is `module` — makes
`projectInfo` return normally with empty module path and project name;
no malformed-manifest failure occurs. -/
theorem projectInfo_no_module_returns_normally :
    projectInfo ["x y"] = .ok "" "" := by decide

/-- C4 (amended): for every manifest that opens successfully, whose every
line has at least one whitespace-delimited field, and which has no line
whose first field is `module`, the Metadata Reader returns normally with
an empty module path and an empty project name: the code has no
malformed-manifest failure path. -/
theorem projectInfo_no_module (lines : List String)
    (h : ∀ t ∈ lines, fields t ≠ [] ∧ (fields t).headD "" ≠ "module") :
    projectInfo lines = .ok "" "" := by
  induction lines with
  | nil => rfl
  | cons t ts ih =>
    obtain ⟨hne, hhd⟩ := h t (by simp)
    show projectInfoLoop (t :: ts) = .ok "" ""
    rw [projectInfoLoop]
    match hft : fields t with
    | [] => exact absurd hft hne
    | f0 :: fs =>
      rw [hft] at hhd
      simp only [List.headD_cons] at hhd
      simp only [hhd, if_false]
      exact ih (fun x hx => h x (by simp [hx]))

/-- C4 (witness). -/
theorem projectInfo_no_module_witness :
    projectInfo ["go 1.16", "require example.com v1.0.0"] = .ok "" "" :=
  projectInfo_no_module ["go 1.16", "require example.com v1.0.0"] (by decide)

/-- C10 (code evaluated at the failing input): a manifest whose first line
is blank makes the scan take the first field of an empty field list —
Go slice indexing out of range, a panic — before the `module` line is
reached. -/
theorem projectInfo_blank_line_panics :
    projectInfo ["", "module github.com/x/y"] = .panicked := by decide

/-- C2 (counterexample): for the vendor tree `vendor/a/b/LICENSE` the
mapping records the single target `a-b-license` (grandparent, then parent,
then lowercased filename) under the license sub-path — the claimed target
name `b-a-license` is not the recorded one. -/
theorem collect_not_b_a_license :
    (collect vendorABTree).map Prod.fst
      = [joinPath packLicDir "a-b-license"] ∧
    licTargetBase "vendor/a/b/LICENSE" ≠ "b-a-license" := by decide

/-- C2 (amended): license target-name generation is deterministic: the
vendor-tree license file `vendor/a/b/LICENSE` is recorded in the mapping
under the target name `a-b-license` (grandparent-parent-lowercased
filename), bound to its source path. -/
theorem collect_vendor_a_b_license :
    collect vendorABTree
      = [(joinPath packLicDir (licTargetBase "vendor/a/b/LICENSE"), "vendor/a/b/LICENSE")] ∧
    licTargetBase "vendor/a/b/LICENSE" = "a-b-license" := by decide

/-- C3 (code evaluated at the failing input): the walk callback never
returns `SkipDir` — the `info.IsDir()` early return precedes the exclusion
test, so that branch is unreachable — and consequently a license file
lying below a directory named `src`, a member of the exclusion set, is
recorded in the license mapping. -/
theorem collect_records_license_under_excluded_dir :
    (∀ (isDir : Bool) (name : String), walkFnAct isDir name ≠ .skipDir) ∧
    collect vendorSrcTree
      = [(joinPath packLicDir "pkg-src-license", "vendor/pkg/src/LICENSE")] := by
  constructor
  · intro isDir name
    cases isDir
    · unfold walkFnAct
      simp only [Bool.false_eq_true, if_false]
      split <;> simp
    · simp [walkFnAct]
  · decide

/-- C6: the Archive Builder creates one zip per discovered binary, and the
zip built for the binary at any index `i` is written at
`dist/<base>.zip` and holds exactly `1` readme entry (first), `1` binary
entry renamed to the project name with the original extension (second),
and one entry per binding of the license mapping (the rest). -/
theorem pack_zip_counts (pn rm : String) (files : List (String × String))
    (bins : List String) (i : Nat) (hi : i < bins.length) :
    (pack pn rm files bins).length = bins.length ∧
    ((pack pn rm files bins).getD i ("", [])).1 = zipName (bins.getD i "") ∧
    ((pack pn rm files bins).getD i ("", [])).2.length = 2 + files.length ∧
    ((pack pn rm files bins).getD i ("", [])).2.headD ("", ZipSrc.text "")
      = (packReadmeName, ZipSrc.text rm) ∧
    (((pack pn rm files bins).getD i ("", [])).2.drop 1).headD ("", ZipSrc.text "")
      = (pn ++ ext (bins.getD i ""), ZipSrc.fromFile (joinPath binDir (bins.getD i ""))) ∧
    ((pack pn rm files bins).getD i ("", [])).2.drop 2
      = files.map (fun pr => (pr.1, ZipSrc.fromFile pr.2)) := by
  have h1 : bins[i]? = some bins[i] := List.getElem?_eq_getElem hi
  have hp : (pack pn rm files bins)[i]?
      = some (zipName bins[i], zipEntries pn rm files bins[i]) := by
    simp [pack, List.getElem?_map, h1]
  refine ⟨by simp [pack], ?_, ?_, ?_, ?_, ?_⟩ <;>
    (simp [List.getD, h1, hp, zipEntries]; try omega)

/-- C6 (witness). -/
theorem pack_zip_counts_witness :
    (pack "gop" "r" [("k", "v")] ["gop-windows-amd64.exe"]).length = 1 ∧
    ((pack "gop" "r" [("k", "v")] ["gop-windows-amd64.exe"]).getD 0 ("", [])).2.length
      = 2 + 1 := by
  have h := pack_zip_counts "gop" "r" [("k", "v")] ["gop-windows-amd64.exe"] 0 (by decide)
  exact ⟨by simpa using h.1, by simpa using h.2.2.1⟩

/-- C7: when packaging was requested, assets exist, the release creation
succeeded and the asset upload fails, the publisher invokes release-delete
next; when that fails, the remote-tag deletion is never invoked and the
process exits; when it succeeds, the remote-tag deletion follows it, in
that order. -/
theorem release_rollback_order (run : Cmd → Bool) (pre : Bool)
    (v tmp dir : String) (assets : List String)
    (hassets : 0 < assets.length)
    (hcreate : run ⟨"gh", ["release", "create", v, "-t", v, "-F", tmp]
      ++ if pre then ["-p"] else []⟩ = true)
    (hupload : run ⟨"gh", ["release", "upload", v]
      ++ assets.map (fun a => joinPath dir a)⟩ = false) :
    (run ⟨"gh", ["release", "delete", v]⟩ = false →
      (release run true pre v tmp dir assets).cmds
        = [⟨"gh", ["release", "create", v, "-t", v, "-F", tmp]
             ++ if pre then ["-p"] else []⟩,
           ⟨"gh", ["release", "upload", v] ++ assets.map (fun a => joinPath dir a)⟩,
           ⟨"gh", ["release", "delete", v]⟩] ∧
      (⟨"git", ["push", "--delete", v]⟩ : Cmd)
        ∉ (release run true pre v tmp dir assets).cmds ∧
      (release run true pre v tmp dir assets).outcome = .exitZero) ∧
    (run ⟨"gh", ["release", "delete", v]⟩ = true →
      (release run true pre v tmp dir assets).cmds
        = [⟨"gh", ["release", "create", v, "-t", v, "-F", tmp]
             ++ if pre then ["-p"] else []⟩,
           ⟨"gh", ["release", "upload", v] ++ assets.map (fun a => joinPath dir a)⟩,
           ⟨"gh", ["release", "delete", v]⟩,
           ⟨"git", ["push", "--delete", v]⟩] ∧
      (release run true pre v tmp dir assets).outcome = .exitZero) := by
  have hne : ¬ (assets.length ≤ 0) := Nat.not_le.mpr hassets
  have hcreate2 : run ⟨"gh", "release" :: "create" :: v :: "-t" :: v :: "-F" :: tmp
      :: (if pre = true then ["-p"] else [])⟩ = true := by
    simpa using hcreate
  have hupload2 : run ⟨"gh", "release" :: "upload" :: v
      :: assets.map (fun a => joinPath dir a)⟩ = false := by
    simpa using hupload
  constructor
  · intro hdel
    simp [release, hne, hcreate2, hupload2, hdel]
  · intro hdel
    by_cases htag : run ⟨"git", ["push", "--delete", v]⟩ = true
    · simp [release, hne, hcreate2, hupload2, hdel, htag]
    · simp only [Bool.not_eq_true] at htag
      simp [release, hne, hcreate2, hupload2, hdel, htag]

/-- C7 (witness). -/
theorem release_rollback_order_witness :
    (release failUploadAndDelete true false "v1" "t.md" "dist" ["a.zip"]).cmds
      = [⟨"gh", ["release", "create", "v1", "-t", "v1", "-F", "t.md"]⟩,
         ⟨"gh", ["release", "upload", "v1", "dist/a.zip"]⟩,
         ⟨"gh", ["release", "delete", "v1"]⟩] ∧
    (⟨"git", ["push", "--delete", "v1"]⟩ : Cmd)
      ∉ (release failUploadAndDelete true false "v1" "t.md" "dist" ["a.zip"]).cmds ∧
    (release failUploadAndDelete true false "v1" "t.md" "dist" ["a.zip"]).outcome
      = .exitZero := by
  have h := release_rollback_order failUploadAndDelete false "v1" "t.md" "dist"
    ["a.zip"] (by decide) (by decide) (by decide)
  have h2 := h.1 (by decide)
  simpa [joinPath] using h2

/-- C8: when release is requested with packaging and the distribution
directory listing is empty, the publisher exits with a success code after
printing the no-assets diagnostic, with zero external invocations — in
particular before any release-creation call. -/
theorem release_no_assets_early_exit (run : Cmd → Bool) (pre : Bool)
    (v tmp dir : String) :
    release run true pre v tmp dir []
      = { cmds := [], errs := ["No assets in " ++ dir ++ " directory\n"],
          outcome := .exitZero } := rfl

/-- C9 (counterexample): two distinct artifact names differing only by an
extension are mapped to the same output zip path. -/
theorem zipName_collision :
    ("gop-linux" : String) ≠ "gop-linux.exe" ∧
    zipName "gop-linux" = zipName "gop-linux.exe" := by decide

/-- C9 (amended): when the base names (filename minus extension) of the
discovered binaries are pairwise distinct — as with the fixed
`name-os-arch` layout of the cross-compiler output — the concurrent
builder tasks target pairwise distinct output zip paths. -/
theorem pack_zip_paths_distinct (pn rm : String) (files : List (String × String))
    (bins : List String)
    (h : (bins.map (fun b => trimSuffix b (ext b))).Nodup) :
    ((pack pn rm files bins).map Prod.fst).Nodup := by
  have hmap : (pack pn rm files bins).map Prod.fst = bins.map zipName := by
    simp [pack, Function.comp]
  rw [hmap]
  unfold List.Nodup at h ⊢
  rw [List.pairwise_map] at h ⊢
  exact h.imp (fun hne => zipName_inj hne)

/-- C9 (witness). -/
theorem pack_zip_paths_distinct_witness :
    ((pack "gop" "r" [] ["gop-linux-amd64", "gop-windows-amd64.exe"]).map
      Prod.fst).Nodup :=
  pack_zip_paths_distinct "gop" "r" [] ["gop-linux-amd64", "gop-windows-amd64.exe"]
    (by decide)

end Gop

